import Mathlib

/-!
# Vehicles of package `resource` (component/resource/vehicle.go)

A shallow embedding of `FileVehicle` and `HTTPVehicle`.

* Go values that are references (the `http.Header` map) live in an explicit
  heap, so that aliasing between the vehicle's configured headers and the
  headers of a request is visible.
* The collaborators that are not part of the file (the hash type, the
  persistent cache, the HTTP transport, the operating system's files) are
  either taken as arguments or given by a small model, each marked as such.
-/

namespace Resource

/-! ## Go base types -/

/-- Go `[]byte`: `none` is the nil slice, `some bs` a non-nil slice holding `bs`. -/
abbrev ByteSlice := Option (List Nat)

/-- Contents of a byte slice; the nil slice has no bytes. -/
def sliceData : ByteSlice → List Nat
  | none => []
  | some bs => bs

/-- Error numbers of the file operations used here. -/
inductive Errno where
  | ENOENT
  | ENOTDIR
  | EISDIR
  deriving DecidableEq, Repr

/-- Go `error` values: an error carrying a text (`errors.New`, transport and
stream failures) or a path error wrapping an error number. A nil `error` is
`none : Option GoError`. -/
inductive GoError where
  | text (msg : String)
  | errno (e : Errno)
  deriving DecidableEq, Repr

/-- Go `errors.New`. -/
def errorsNew (msg : String) : GoError := GoError.text msg

/-- Go `os.IsNotExist`. -/
def osIsNotExist : GoError → Bool
  | GoError.errno Errno.ENOENT => true
  | _ => false

/-! ## The hash type (package `constant/provider`) -/

/-- Modelled from the spec: the API of `types.HashType`, whose declaration is
not in this file. A fixed-size digest with a zero value (`zero`, the value of
an unassigned `HashType` result), `MakeHash` over raw bytes, the validity
check `IsValid`, comparison with a raw byte slice `EqualBytes`, and the raw
bytes `Bytes`. The operations are arguments: nothing is assumed about them
beyond their types. -/
structure HashOps (H : Type) where
  zero : H
  MakeHash : List Nat → H
  IsValid : H → Bool
  EqualBytes : H → ByteSlice → Bool
  Bytes : H → ByteSlice

/-! ## `http.Header` -/

/-- Contents of a Go `http.Header` (`map[string][]string`), as an association
list read at its first match. Keys are the strings stored in the map, whatever
their case; `Header.Get` and `Header.Set` canonicalise the name they are given
before they index the map. -/
abbrev HeaderMap := List (String × List String)

/-- Go `textproto.validHeaderFieldByte`: the token characters of RFC 7230
(digits, letters and the fifteen marks, given by their codes). -/
def validHeaderFieldByte (c : Char) : Bool :=
  let n := c.toNat
  (48 ≤ n && n ≤ 57) || (65 ≤ n && n ≤ 90) || (97 ≤ n && n ≤ 122) ||
    [33, 35, 36, 37, 38, 39, 42, 43, 45, 46, 94, 95, 96, 124, 126].contains n

/-- The rewriting loop of Go `textproto.canonicalMIMEHeaderKey`: a letter is put
in upper case at the start and after a dash, in lower case elsewhere. -/
def canonicalBytes : Bool → List Char → List Char
  | _, [] => []
  | upper, c :: cs =>
    let c1 :=
      if upper && (97 ≤ c.toNat && c.toNat ≤ 122) then Char.ofNat (c.toNat - 32)
      else if !upper && (65 ≤ c.toNat && c.toNat ≤ 90) then Char.ofNat (c.toNat + 32)
      else c
    c1 :: canonicalBytes (c1.toNat == 45) cs

/-- Go `textproto.CanonicalMIMEHeaderKey`: a name made of token characters only
is rewritten to its canonical case (`ETag` becomes `Etag`); a name with any
other byte (a space, a byte outside ASCII) is returned unchanged. -/
def CanonicalMIMEHeaderKey (s : String) : String :=
  if s.data.all validHeaderFieldByte then String.mk (canonicalBytes true s.data) else s

/-- Map lookup `m[key]`. -/
def headerValues (m : HeaderMap) (key : String) : Option (List String) :=
  match m.find? (fun kv => kv.1 == key) with
  | some kv => some kv.2
  | none => none

/-- Go `Header.Get`: the first value stored under the canonical form of the
key, or the empty string. -/
def headerGet (m : HeaderMap) (key : String) : String :=
  match headerValues m (CanonicalMIMEHeaderKey key) with
  | some (v :: _) => v
  | _ => ""

/-- Map assignment `m[key] = []string{value}`. -/
def headerStore (m : HeaderMap) (key value : String) : HeaderMap :=
  (key, [value]) :: m.filter (fun kv => kv.1 != key)

/-- Go `Header.Set`: the canonical form of the key is bound to the single value,
replacing what was there. -/
def headerSet (m : HeaderMap) (key value : String) : HeaderMap :=
  headerStore m (CanonicalMIMEHeaderKey key) value

/-- The heap of header maps: address `a` holds `heap[a]`. -/
abbrev Heap := List HeaderMap

/-- A Go value of type `http.Header`: nil, or the address of a map. -/
abbrev Header := Option Nat

/-- Contents of the map at an address (no entries where nothing is allocated). -/
def heapRead (heap : Heap) (a : Nat) : HeaderMap := heap.getD a []

/-- A fresh map with the given contents; returns the new heap and the address. -/
def heapAlloc (heap : Heap) (m : HeaderMap) : Heap × Nat := (heap ++ [m], heap.length)

/-- In-place update of the map at an address. -/
def heapWrite (heap : Heap) (a : Nat) (m : HeaderMap) : Heap := heap.set a m

/-- What a header value denotes in a heap: nil, or the contents of its map. -/
def headerDeref (heap : Heap) : Header → Option HeaderMap
  | none => none
  | some a => some (heapRead heap a)

/-! ## The persistent cache (package `component/profile/cachefile`) -/

/-- Modelled from the spec: the external persistent cache, which is not in this
file. It maps a URL to the pair (hash bytes, ETag) last stored for it. -/
abbrev Cache := String → ByteSlice × String

/-- Modelled from the spec: `GetETagWithHash(url)` supplies the stored pair. -/
def GetETagWithHash (c : Cache) (url : String) : ByteSlice × String := c url

/-- Modelled from the spec: `SetETagWithHash(url, hashBytes, etag)` replaces the
pair stored for `url`. -/
def SetETagWithHash (c : Cache) (url : String) (hashBytes : ByteSlice) (etag : String) : Cache :=
  fun u => if u = url then (hashBytes, etag) else c u

/-- A cache with nothing stored. -/
def emptyCache : Cache := fun _ => (none, "")

/-! ## The transport (package `component/http`) -/

/-- The arguments of one `HttpRequestWithProxy` call. `header` is what the header
argument denotes when the call is made; `timeout` is the bound of the context. -/
structure Request where
  url : String
  method : String
  header : Option HeaderMap
  proxy : String
  timeout : Int
  deriving DecidableEq, Repr

/-- A response body stream: the bytes it delivers, and how it ends (`none`:
end of stream; `some e`: it fails with `e` once those bytes are delivered). -/
structure Body where
  data : List Nat
  err : Option GoError
  deriving DecidableEq, Repr

/-- The fields of `http.Response` that `Read` looks at. -/
structure Response where
  StatusCode : Int
  Status : String
  Header : HeaderMap
  Body : Body
  deriving DecidableEq, Repr

/-- The transport collaborator `HttpRequestWithProxy`, taken as an argument. It
reads the header set it is given and changes no map of the caller. -/
abbrev Transport := Request → Except GoError Response

/-- Go `io.ReadAll`: reads until an error or the end of the stream and returns
the data it read (a non-nil slice) together with the error, if any. -/
def ioReadAll (b : Body) : ByteSlice × Option GoError := (some b.data, b.err)

/-- Go `http.StatusNotModified`. -/
def StatusNotModified : Int := 304

/-- Go `http.MethodGet`. -/
def MethodGet : String := "GET"

/-! ## A model of the files -/

/-- A cleaned absolute path, as its list of names from the root. -/
abbrev Path := List String

/-- Go `filepath.Dir`: the path without its last name; the root is its own parent. -/
def filepathDir (p : Path) : Path := p.dropLast

/-- A directory or a regular file, with its permission bits. -/
inductive Node where
  | dir (mode : Nat)
  | file (mode : Nat) (content : List Nat)
  deriving DecidableEq, Repr

/-- The file tree: what each path names. Permission bits are recorded and not
enforced. -/
abbrev FS := Path → Option Node

/-- The tree with one path rebound. -/
def fsUpdate (fs : FS) (p : Path) (n : Node) : FS :=
  fun q => if q = p then some n else fs q

/-- Whether `p` names a directory: `none` when it does, else the error number. -/
def dirCheck (fs : FS) (p : Path) : Option GoError :=
  match fs p with
  | none => some (GoError.errno Errno.ENOENT)
  | some (Node.file _ _) => some (GoError.errno Errno.ENOTDIR)
  | some (Node.dir _) => none

/-- Path resolution: `pre` and each extension of it by the names of `rest`, in
turn, must name a directory. -/
def walk (fs : FS) : Path → List String → Option GoError
  | pre, [] => dirCheck fs pre
  | pre, x :: xs =>
    match dirCheck fs pre with
    | some e => some e
    | none => walk fs (pre ++ [x]) xs

/-- Lookup of `pre` extended by the names of `rest`: each path on the way must
name a directory, and the last one must exist. -/
def statFrom (fs : FS) : Path → List String → Except GoError Node
  | pre, [] =>
    match fs pre with
    | none => Except.error (GoError.errno Errno.ENOENT)
    | some n => Except.ok n
  | pre, x :: xs =>
    match dirCheck fs pre with
    | some e => Except.error e
    | none => statFrom fs (pre ++ [x]) xs

/-- Go `os.Stat`. -/
def osStat (fs : FS) (p : Path) : Except GoError Node := statFrom fs [] p

/-- One step of `os.MkdirAll`: `p` is a directory already, or is created, or is
in the way as a regular file. -/
def ensureDir (mode : Nat) (fs : FS) (p : Path) : FS × Option GoError :=
  match fs p with
  | some (Node.dir _) => (fs, none)
  | some (Node.file _ _) => (fs, some (GoError.errno Errno.ENOTDIR))
  | none => (fsUpdate fs p (Node.dir mode), none)

/-- The directories from `pre` down along `rest` are made, those missing being created. -/
def mkdirFrom (mode : Nat) : FS → Path → List String → FS × Option GoError
  | fs, pre, [] => ensureDir mode fs pre
  | fs, pre, x :: xs =>
    match ensureDir mode fs pre with
    | (fs1, none) => mkdirFrom mode fs1 (pre ++ [x]) xs
    | (fs1, some e) => (fs1, some e)

/-- Go `os.MkdirAll`. -/
def osMkdirAll (fs : FS) (p : Path) (mode : Nat) : FS × Option GoError :=
  mkdirFrom mode fs [] p

/-- Go `os.WriteFile`: the file is created with `mode` or truncated, then holds the data. -/
def osWriteFile (fs : FS) (p : Path) (buf : ByteSlice) (mode : Nat) : FS × Option GoError :=
  match walk fs [] (filepathDir p) with
  | some e => (fs, some e)
  | none =>
    match fs p with
    | some (Node.dir _) => (fs, some (GoError.errno Errno.EISDIR))
    | some (Node.file m _) => (fsUpdate fs p (Node.file m (sliceData buf)), none)
    | none => (fsUpdate fs p (Node.file mode (sliceData buf)), none)

/-- Go `os.ReadFile`: nil bytes when the file cannot be opened; once it is open,
the bytes read (a non-nil slice) and the read error, if any. -/
def osReadFile (fs : FS) (p : Path) : ByteSlice × Option GoError :=
  match walk fs [] (filepathDir p) with
  | some e => (none, some e)
  | none =>
    match fs p with
    | none => (none, some (GoError.errno Errno.ENOENT))
    | some (Node.dir _) => (some [], some (GoError.errno Errno.EISDIR))
    | some (Node.file _ c) => (some c, none)

/-- No path from `pre` down along `rest` names a regular file. -/
def NoFileAlong (fs : FS) (pre : Path) (rest : List String) : Prop :=
  ∀ n, n ≤ rest.length → ∀ m c, fs (pre ++ rest.take n) ≠ some (Node.file m c)

/-! ## vehicle.go -/

/-- Source: `fileMode os.FileMode = 0o666`. -/
def fileMode : Nat := 0o666

/-- Source: `dirMode os.FileMode = 0o755`. -/
def dirMode : Nat := 0o755

/-- Source: `safeWrite(path, buf)`. Returns the files afterwards and the error. -/
def safeWrite (fs : FS) (path : Path) (buf : ByteSlice) : FS × Option GoError :=
  let dir := filepathDir path
  match osStat fs dir with
  | Except.error err =>
    if osIsNotExist err then
      match osMkdirAll fs dir dirMode with
      | (fs1, some e) => (fs1, some e)
      | (fs1, none) => osWriteFile fs1 path buf fileMode
    else
      osWriteFile fs path buf fileMode
  | Except.ok _ => osWriteFile fs path buf fileMode

/-- Source: `type FileVehicle struct`. -/
structure FileVehicle where
  path : Path
  deriving DecidableEq, Repr

/-- Source: `NewFileVehicle`. -/
def NewFileVehicle (path : Path) : FileVehicle := FileVehicle.mk path

/-- The three results of a `Read`. -/
structure ReadResult (H : Type) where
  buf : ByteSlice
  hash : H
  err : Option GoError

/-- Source: `(f *FileVehicle) Read(ctx, oldHash)`. The results are named in the
source, so a bare `return` hands back what they hold at that point. -/
def FileVehicle.Read {H : Type} (ops : HashOps H) (f : FileVehicle) (fs : FS) (_oldHash : H) :
    ReadResult H :=
  match osReadFile fs f.path with
  | (buf, some err) => ReadResult.mk buf ops.zero (some err)
  | (buf, none) => ReadResult.mk buf (ops.MakeHash (sliceData buf)) none

/-- Source: `(f *FileVehicle) Write(buf)`. -/
def FileVehicle.Write (f : FileVehicle) (fs : FS) (buf : ByteSlice) : FS × Option GoError :=
  safeWrite fs f.path buf

/-- Source: `(f *FileVehicle) Proxy()`. -/
def FileVehicle.Proxy (_f : FileVehicle) : String := ""

/-- Source: `type HTTPVehicle struct`. -/
structure HTTPVehicle where
  url : String
  path : Path
  proxy : String
  header : Header
  timeout : Int
  deriving DecidableEq, Repr

/-- Source: `NewHTTPVehicle`. -/
def NewHTTPVehicle (url : String) (path : Path) (proxy : String) (header : Header)
    (timeout : Int) : HTTPVehicle :=
  HTTPVehicle.mk url path proxy header timeout

/-- Source: `(h *HTTPVehicle) Write(buf)`. -/
def HTTPVehicle.Write (h : HTTPVehicle) (fs : FS) (buf : ByteSlice) : FS × Option GoError :=
  safeWrite fs h.path buf

/-- One `SetETagWithHash` call: URL, hash bytes, ETag. -/
abbrev CacheSet := String × ByteSlice × String

/-- Source: lines 104 to 117 of `(h *HTTPVehicle) Read`: the header value of the
request and the flag `setIfNoneMatch`, with the heap afterwards. -/
def HTTPVehicle.requestHeader {H : Type} (ops : HashOps H) (h : HTTPVehicle) (oldHash : H)
    (heap : Heap) (cache : Cache) : Heap × Header × Bool :=
  if ops.IsValid oldHash then
    match GetETagWithHash cache h.url with
    | (hashBytes, etag) =>
      if ops.EqualBytes oldHash hashBytes && etag != "" then
        match (match h.header with
               | none => heapAlloc heap []
               | some a => heapAlloc heap (heapRead heap a)) with
        | (heap1, r) =>
          (heapWrite heap1 r (headerSet (heapRead heap1 r) "If-None-Match" etag), some r, true)
      else (heap, h.header, false)
  else (heap, h.header, false)

/-- Everything one `HTTPVehicle.Read` call does: its three results, the heap
and the cache afterwards, the `SetETagWithHash` calls it made, the request
it handed to the transport and the flag `setIfNoneMatch`. -/
structure HTTPRead (H : Type) where
  buf : ByteSlice
  hash : H
  err : Option GoError
  heap : Heap
  cache : Cache
  sets : List CacheSet
  sent : Request
  setIfNoneMatch : Bool

/-- Source: `(h *HTTPVehicle) Read(ctx, oldHash)`. The results are named in the
source, so a bare `return` hands back what they hold at that point. -/
def HTTPVehicle.Read {H : Type} (ops : HashOps H) (transport : Transport) (h : HTTPVehicle)
    (oldHash : H) (heap : Heap) (cache : Cache) : HTTPRead H :=
  match HTTPVehicle.requestHeader ops h oldHash heap cache with
  | (heap1, header, setIfNoneMatch) =>
    let req := Request.mk h.url MethodGet (headerDeref heap1 header) h.proxy h.timeout
    match transport req with
    | Except.error err =>
      HTTPRead.mk none ops.zero (some err) heap1 cache [] req setIfNoneMatch
    | Except.ok resp =>
      if resp.StatusCode < 200 ∨ resp.StatusCode > 299 then
        if setIfNoneMatch && resp.StatusCode == StatusNotModified then
          HTTPRead.mk none oldHash none heap1 cache [] req setIfNoneMatch
        else
          HTTPRead.mk none ops.zero (some (errorsNew resp.Status)) heap1 cache [] req
            setIfNoneMatch
      else
        match ioReadAll resp.Body with
        | (buf, some err) =>
          HTTPRead.mk buf ops.zero (some err) heap1 cache [] req setIfNoneMatch
        | (buf, none) =>
          let hash := ops.MakeHash (sliceData buf)
          let etag := headerGet resp.Header "ETag"
          HTTPRead.mk buf hash none heap1 (SetETagWithHash cache h.url (ops.Bytes hash) etag)
            [(h.url, ops.Bytes hash, etag)] req setIfNoneMatch

/-- The request that `Read` hands to the transport (line 118 of the source). -/
def HTTPVehicle.request {H : Type} (ops : HashOps H) (h : HTTPVehicle) (oldHash : H)
    (heap : Heap) (cache : Cache) : Request :=
  match HTTPVehicle.requestHeader ops h oldHash heap cache with
  | (heap1, header, _) => Request.mk h.url MethodGet (headerDeref heap1 header) h.proxy h.timeout

/-- The values a request header set holds for a name; a nil header set holds none. -/
def headerLookup : Option HeaderMap → String → Option (List String)
  | none, _ => none
  | some m, key => headerValues m key

/-- Whether a request header set has an `If-None-Match` entry. -/
def carriesIfNoneMatch (hdr : Option HeaderMap) : Bool :=
  (headerLookup hdr "If-None-Match").isSome

/-- The cache after a list of `SetETagWithHash` calls, made in order. -/
def applySets (c : Cache) (sets : List CacheSet) : Cache :=
  sets.foldl (fun acc s => SetETagWithHash acc s.1 s.2.1 s.2.2) c

/-- Every header value that is not nil points into the heap. -/
def headerAllocated (heap : Heap) : Header → Prop
  | none => True
  | some a => a < heap.length

instance (heap : Heap) (hdr : Header) : Decidable (headerAllocated heap hdr) := by
  cases hdr <;> simp only [headerAllocated] <;> infer_instance

/-! ## Instances used in the worked examples -/

/-- A one-cell digest for the worked examples: one more than the sum of the bytes. -/
def sumHash : HashOps Nat :=
  HashOps.mk 0 (fun bs => bs.sum + 1) (fun h => h != 0)
    (fun h bs => bs == some [h]) (fun h => some [h])

/-- A response with the given status, ETag header and body. -/
def mkResponse (code : Int) (status : String) (hdr : HeaderMap) (data : List Nat)
    (err : Option GoError) : Response :=
  Response.mk code status hdr (Body.mk data err)

/-- A transport that answers every request with the same response. -/
def always (r : Response) : Transport := fun _ => Except.ok r

/-- A transport that fails every request. -/
def failing (e : GoError) : Transport := fun _ => Except.error e

/-- A tree holding the root directory only. -/
def rootOnly : FS := fun p => if p = [] then some (Node.dir 0o755) else none

/-- A vehicle for the worked examples, with nil headers. -/
def exVehicle : HTTPVehicle := NewHTTPVehicle "http://x/r" ["c", "r"] "" none 20

/-- A cache holding the pair (bytes of hash 7, ETag "e1") for the example vehicle. -/
def exCache : Cache := SetETagWithHash emptyCache "http://x/r" (some [7]) "e1"

/-- A cache holding the bytes of hash 7 for the example vehicle, with no ETag on record. -/
def exCacheNoTag : Cache := SetETagWithHash emptyCache "http://x/r" (some [7]) ""

/-- A vehicle whose configured headers are the map at address 0. -/
def exVehicleHdr : HTTPVehicle := NewHTTPVehicle "http://x/r" ["c", "r"] "" (some 0) 20

/-- A heap whose map 0 holds a `User-Agent` entry. -/
def exHeap : Heap := [[("User-Agent", ["m"])]]

/-- A heap whose map 0 holds an `If-None-Match` entry of its own. -/
def exHeapINM : Heap := [[("If-None-Match", ["x"])]]

/-! ## Lemmas -/

section ReadLemmas

variable {H : Type} (ops : HashOps H) (t : Transport) (h : HTTPVehicle) (oldHash : H)
  (heap : Heap) (cache : Cache)

theorem requestHeader_flag_iff :
    (HTTPVehicle.requestHeader ops h oldHash heap cache).2.2 = true ↔
      (ops.IsValid oldHash = true ∧
        ops.EqualBytes oldHash (GetETagWithHash cache h.url).1 = true ∧
        (GetETagWithHash cache h.url).2 ≠ "") := by
  unfold HTTPVehicle.requestHeader
  by_cases hv : ops.IsValid oldHash = true
  · by_cases he : ops.EqualBytes oldHash (GetETagWithHash cache h.url).1 = true
    · by_cases hn : (GetETagWithHash cache h.url).2 = ""
      · simp [hv, he, hn]
      · simp [hv, he, hn]
    · simp [hv, he]
  · simp [hv]

theorem requestHeader_of_not_flag
    (hf : (HTTPVehicle.requestHeader ops h oldHash heap cache).2.2 = false) :
    HTTPVehicle.requestHeader ops h oldHash heap cache = (heap, h.header, false) := by
  unfold HTTPVehicle.requestHeader at hf ⊢
  by_cases hv : ops.IsValid oldHash = true
  · by_cases hc : (ops.EqualBytes oldHash (GetETagWithHash cache h.url).1 &&
        (GetETagWithHash cache h.url).2 != "") = true
    · simp [hv, hc] at hf
    · simp [hv, hc]
  · simp [hv]

theorem requestHeader_of_flag
    (hf : (HTTPVehicle.requestHeader ops h oldHash heap cache).2.2 = true) :
    HTTPVehicle.requestHeader ops h oldHash heap cache =
      (heap ++ [headerSet (match h.header with
                           | none => []
                           | some a => heapRead heap a) "If-None-Match"
                  (GetETagWithHash cache h.url).2],
        some heap.length, true) := by
  unfold HTTPVehicle.requestHeader at hf ⊢
  by_cases hv : ops.IsValid oldHash = true
  · by_cases hc : (ops.EqualBytes oldHash (GetETagWithHash cache h.url).1 &&
        (GetETagWithHash cache h.url).2 != "") = true
    · cases hh : h.header <;>
        simp [hv, hc, heapAlloc, heapWrite, heapRead]
    · simp [hv, hc] at hf
  · simp [hv] at hf



theorem Read_sent :
    (HTTPVehicle.Read ops t h oldHash heap cache).sent =
      HTTPVehicle.request ops h oldHash heap cache := by
  unfold HTTPVehicle.Read HTTPVehicle.request
  generalize HTTPVehicle.requestHeader ops h oldHash heap cache = rh
  obtain ⟨heap1, header, flag⟩ := rh
  dsimp only
  split
  · rfl
  · split
    · split <;> rfl
    · split <;> rfl

theorem Read_flag :
    (HTTPVehicle.Read ops t h oldHash heap cache).setIfNoneMatch =
      (HTTPVehicle.requestHeader ops h oldHash heap cache).2.2 := by
  unfold HTTPVehicle.Read
  generalize HTTPVehicle.requestHeader ops h oldHash heap cache = rh
  obtain ⟨heap1, header, flag⟩ := rh
  dsimp only
  split
  · rfl
  · split
    · split <;> rfl
    · split <;> rfl

theorem Read_heap :
    (HTTPVehicle.Read ops t h oldHash heap cache).heap =
      (HTTPVehicle.requestHeader ops h oldHash heap cache).1 := by
  unfold HTTPVehicle.Read
  generalize HTTPVehicle.requestHeader ops h oldHash heap cache = rh
  obtain ⟨heap1, header, flag⟩ := rh
  dsimp only
  split
  · rfl
  · split
    · split <;> rfl
    · split <;> rfl

theorem Read_of_transport_error (e : GoError)
    (ht : t (HTTPVehicle.request ops h oldHash heap cache) = Except.error e) :
    HTTPVehicle.Read ops t h oldHash heap cache =
      HTTPRead.mk none ops.zero (some e) (HTTPVehicle.requestHeader ops h oldHash heap cache).1
        cache [] (HTTPVehicle.request ops h oldHash heap cache)
        (HTTPVehicle.requestHeader ops h oldHash heap cache).2.2 := by
  unfold HTTPVehicle.Read HTTPVehicle.request at *
  generalize HTTPVehicle.requestHeader ops h oldHash heap cache = rh at *
  obtain ⟨heap1, header, flag⟩ := rh
  dsimp only at *
  rw [ht]

theorem Read_of_not_modified (resp : Response)
    (ht : t (HTTPVehicle.request ops h oldHash heap cache) = Except.ok resp)
    (hf : (HTTPVehicle.requestHeader ops h oldHash heap cache).2.2 = true)
    (hc : resp.StatusCode = StatusNotModified) :
    HTTPVehicle.Read ops t h oldHash heap cache =
      HTTPRead.mk none oldHash none (HTTPVehicle.requestHeader ops h oldHash heap cache).1
        cache [] (HTTPVehicle.request ops h oldHash heap cache) true := by
  unfold HTTPVehicle.Read HTTPVehicle.request at *
  generalize HTTPVehicle.requestHeader ops h oldHash heap cache = rh at *
  obtain ⟨heap1, header, flag⟩ := rh
  dsimp only at *
  subst hf
  rw [ht]
  simp [hc, StatusNotModified]

theorem Read_of_status_error (resp : Response)
    (ht : t (HTTPVehicle.request ops h oldHash heap cache) = Except.ok resp)
    (hs : resp.StatusCode < 200 ∨ resp.StatusCode > 299)
    (hn : ¬ ((HTTPVehicle.requestHeader ops h oldHash heap cache).2.2 = true ∧
        resp.StatusCode = StatusNotModified)) :
    HTTPVehicle.Read ops t h oldHash heap cache =
      HTTPRead.mk none ops.zero (some (errorsNew resp.Status))
        (HTTPVehicle.requestHeader ops h oldHash heap cache).1
        cache [] (HTTPVehicle.request ops h oldHash heap cache)
        (HTTPVehicle.requestHeader ops h oldHash heap cache).2.2 := by
  unfold HTTPVehicle.Read HTTPVehicle.request at *
  generalize HTTPVehicle.requestHeader ops h oldHash heap cache = rh at *
  obtain ⟨heap1, header, flag⟩ := rh
  dsimp only at *
  rw [ht]
  have hn2 : (flag && resp.StatusCode == StatusNotModified) = false := by
    cases flag <;> simp_all
  simp [hs, hn2]

theorem Read_of_body_error (resp : Response) (e : GoError)
    (ht : t (HTTPVehicle.request ops h oldHash heap cache) = Except.ok resp)
    (hs : 200 ≤ resp.StatusCode ∧ resp.StatusCode ≤ 299)
    (hb : resp.Body.err = some e) :
    HTTPVehicle.Read ops t h oldHash heap cache =
      HTTPRead.mk (some resp.Body.data) ops.zero (some e)
        (HTTPVehicle.requestHeader ops h oldHash heap cache).1
        cache [] (HTTPVehicle.request ops h oldHash heap cache)
        (HTTPVehicle.requestHeader ops h oldHash heap cache).2.2 := by
  unfold HTTPVehicle.Read HTTPVehicle.request at *
  generalize HTTPVehicle.requestHeader ops h oldHash heap cache = rh at *
  obtain ⟨heap1, header, flag⟩ := rh
  dsimp only at *
  rw [ht]
  have hs2 : ¬ (resp.StatusCode < 200 ∨ resp.StatusCode > 299) := by omega
  simp [hs2, ioReadAll, hb]

theorem Read_of_success (resp : Response)
    (ht : t (HTTPVehicle.request ops h oldHash heap cache) = Except.ok resp)
    (hs : 200 ≤ resp.StatusCode ∧ resp.StatusCode ≤ 299)
    (hb : resp.Body.err = none) :
    HTTPVehicle.Read ops t h oldHash heap cache =
      HTTPRead.mk (some resp.Body.data) (ops.MakeHash resp.Body.data) none
        (HTTPVehicle.requestHeader ops h oldHash heap cache).1
        (SetETagWithHash cache h.url (ops.Bytes (ops.MakeHash resp.Body.data))
          (headerGet resp.Header "ETag"))
        [(h.url, ops.Bytes (ops.MakeHash resp.Body.data), headerGet resp.Header "ETag")]
        (HTTPVehicle.request ops h oldHash heap cache)
        (HTTPVehicle.requestHeader ops h oldHash heap cache).2.2 := by
  unfold HTTPVehicle.Read HTTPVehicle.request at *
  generalize HTTPVehicle.requestHeader ops h oldHash heap cache = rh at *
  obtain ⟨heap1, header, flag⟩ := rh
  dsimp only at *
  rw [ht]
  have hs2 : ¬ (resp.StatusCode < 200 ∨ resp.StatusCode > 299) := by omega
  simp [hs2, ioReadAll, hb, sliceData]


end ReadLemmas

theorem canonical_if_none_match :
    CanonicalMIMEHeaderKey "If-None-Match" = "If-None-Match" := by
  decide

theorem canonical_etag : CanonicalMIMEHeaderKey "ETag" = "Etag" := by
  decide

theorem headerValues_headerStore_self (m : HeaderMap) (k v : String) :
    headerValues (headerStore m k v) k = some [v] := by
  simp [headerValues, headerStore]

theorem headerValues_headerSet_self (m : HeaderMap) (v : String) :
    headerValues (headerSet m "If-None-Match" v) "If-None-Match" = some [v] := by
  unfold headerSet
  rw [canonical_if_none_match]
  exact headerValues_headerStore_self m _ v

theorem find_filter_other (m : HeaderMap) (k key : String) (hk : key ≠ k) :
    (m.filter (fun kv => kv.1 != k)).find? (fun kv => kv.1 == key) =
      m.find? (fun kv => kv.1 == key) := by
  induction m with
  | nil => rfl
  | cons kv rest ih =>
    by_cases h1 : kv.1 = k
    · have h2 : (kv.1 == key) = false := by
        rw [h1]; simpa using (Ne.symm hk)
      have h4 : (kv.1 != k) = false := by simp [h1]
      rw [List.filter_cons, h4, List.find?_cons, h2]
      simpa using ih
    · have h4 : (kv.1 != k) = true := by simp [h1]
      rw [List.filter_cons, h4]
      simp only [if_true, List.find?_cons]
      rw [ih]

theorem headerValues_headerStore_other (m : HeaderMap) (k v key : String) (hk : key ≠ k) :
    headerValues (headerStore m k v) key = headerValues m key := by
  have hk2 : (k == key) = false := by simpa using (Ne.symm hk)
  unfold headerValues headerStore
  rw [List.find?_cons]
  simp only [hk2]
  rw [find_filter_other m k key hk]

theorem headerValues_headerSet_other (m : HeaderMap) (v key : String)
    (hk : key ≠ "If-None-Match") :
    headerValues (headerSet m "If-None-Match" v) key = headerValues m key := by
  unfold headerSet
  rw [canonical_if_none_match]
  exact headerValues_headerStore_other m _ v key hk

theorem headerGet_of_etag (m : HeaderMap) (v : String) (vs : List String)
    (hm : headerValues m "Etag" = some (v :: vs)) : headerGet m "ETag" = v := by
  unfold headerGet
  rw [canonical_etag, hm]

theorem headerGet_of_no_etag (m : HeaderMap) (hm : headerValues m "Etag" = none) :
    headerGet m "ETag" = "" := by
  unfold headerGet
  rw [canonical_etag, hm]

theorem heapRead_append_lt (heap : Heap) (m : HeaderMap) (a : Nat) (ha : a < heap.length) :
    heapRead (heap ++ [m]) a = heapRead heap a := by
  simp [heapRead, List.getD, List.getElem?_append_left ha]

theorem heapRead_append_length (heap : Heap) (m : HeaderMap) :
    heapRead (heap ++ [m]) heap.length = m := by
  simp [heapRead, List.getD]

theorem conditional_request_lookup {H : Type} (ops : HashOps H) (t : Transport)
    (h : HTTPVehicle) (oldHash : H) (heap : Heap) (cache : Cache)
    (hf : (HTTPVehicle.requestHeader ops h oldHash heap cache).2.2 = true) :
    headerLookup (HTTPVehicle.Read ops t h oldHash heap cache).sent.header "If-None-Match" =
      some [(GetETagWithHash cache h.url).2] := by
  rw [Read_sent]
  unfold HTTPVehicle.request
  rw [requestHeader_of_flag ops h oldHash heap cache hf]
  simp only [headerDeref, headerLookup, heapRead_append_length,
    headerValues_headerSet_self]

theorem requestHeader_heap_frame {H : Type} (ops : HashOps H) (h : HTTPVehicle) (oldHash : H)
    (heap : Heap) (cache : Cache) (a : Nat) (ha : a < heap.length) :
    heapRead (HTTPVehicle.requestHeader ops h oldHash heap cache).1 a = heapRead heap a := by
  cases hf : (HTTPVehicle.requestHeader ops h oldHash heap cache).2.2 with
  | false => rw [requestHeader_of_not_flag ops h oldHash heap cache hf]
  | true =>
    rw [requestHeader_of_flag ops h oldHash heap cache hf]
    exact heapRead_append_lt heap _ a ha

theorem headerDeref_frame (heap heap1 : Heap) (hdr : Header)
    (hwf : headerAllocated heap hdr)
    (hfr : ∀ a, a < heap.length → heapRead heap1 a = heapRead heap a) :
    headerDeref heap1 hdr = headerDeref heap hdr := by
  cases hdr with
  | none => rfl
  | some a =>
    simp only [headerDeref]
    rw [hfr a hwf]

theorem request_header_agrees {H : Type} (ops : HashOps H) (h : HTTPVehicle) (oldHash : H)
    (heap : Heap) (cache : Cache) (key : String) (hk : key ≠ "If-None-Match") :
    headerLookup (HTTPVehicle.request ops h oldHash heap cache).header key =
      headerLookup (headerDeref heap h.header) key := by
  unfold HTTPVehicle.request
  cases hf : (HTTPVehicle.requestHeader ops h oldHash heap cache).2.2 with
  | false => rw [requestHeader_of_not_flag ops h oldHash heap cache hf]
  | true =>
    rw [requestHeader_of_flag ops h oldHash heap cache hf]
    simp only [headerDeref, headerLookup, heapRead_append_length]
    rw [headerValues_headerSet_other _ _ _ hk]
    cases h.header with
    | none => rfl
    | some a => rfl

theorem walk_congr (fs fs1 : FS) (rest : List String) :
    ∀ pre : Path, (∀ q : Path, q.length ≤ pre.length + rest.length → fs1 q = fs q) →
      walk fs1 pre rest = walk fs pre rest := by
  induction rest with
  | nil =>
    intro pre hq
    simp only [walk, dirCheck]
    rw [hq pre (by simp)]
  | cons x xs ih =>
    intro pre hq
    simp only [walk, dirCheck]
    rw [hq pre (by simp)]
    rw [ih (pre ++ [x]) (fun q hlen => hq q (by simp at hlen ⊢; omega))]

theorem walk_root_dir (fs : FS) (rest : List String) (hw : walk fs [] rest = none) :
    ∃ m, fs [] = some (Node.dir m) := by
  have hd : dirCheck fs [] = none := by
    cases rest with
    | nil => simpa [walk] using hw
    | cons x xs =>
      simp only [walk] at hw
      cases hc : dirCheck fs [] with
      | none => rfl
      | some e => rw [hc] at hw; cases hw
  unfold dirCheck at hd
  cases hfs : fs [] with
  | none => rw [hfs] at hd; cases hd
  | some n =>
    cases n with
    | dir m => exact ⟨m, rfl⟩
    | file m c => rw [hfs] at hd; cases hd

theorem walk_fsUpdate_dir (fs : FS) (p : Path) (n : Node) (hp : p ≠ []) :
    walk (fsUpdate fs p n) [] (filepathDir p) = walk fs [] (filepathDir p) := by
  apply walk_congr
  intro q hlen
  have hne : q ≠ p := by
    intro hqp
    subst hqp
    have hpos : 0 < q.length := List.length_pos.mpr hp
    simp [filepathDir, List.length_dropLast] at hlen
    omega
  simp [fsUpdate, hne]

theorem osWriteFile_post (fs : FS) (p : Path) (buf : ByteSlice) (mode : Nat)
    (hw : (osWriteFile fs p buf mode).2 = none) :
    walk (osWriteFile fs p buf mode).1 [] (filepathDir p) = none ∧
      ∃ m, (osWriteFile fs p buf mode).1 p = some (Node.file m (sliceData buf)) := by
  unfold osWriteFile at hw ⊢
  cases hwalk : walk fs [] (filepathDir p) with
  | some e => rw [hwalk] at hw; cases hw
  | none =>
    rw [hwalk] at hw
    simp only [] at hw ⊢
    have hp : p ≠ [] := by
      intro hnil
      subst hnil
      obtain ⟨m, hm⟩ := walk_root_dir fs _ hwalk
      rw [hm] at hw
      cases hw
    cases hfs : fs p with
    | none =>
      simp only [walk_fsUpdate_dir fs p _ hp, hwalk]
      exact ⟨trivial, mode, by simp [fsUpdate]⟩
    | some n =>
      cases n with
      | dir m => rw [hfs] at hw; cases hw
      | file m c =>
        simp only [walk_fsUpdate_dir fs p _ hp, hwalk]
        exact ⟨trivial, m, by simp [fsUpdate]⟩

theorem osReadFile_after_osWriteFile (fs : FS) (p : Path) (buf : ByteSlice) (mode : Nat)
    (hw : (osWriteFile fs p buf mode).2 = none) :
    osReadFile (osWriteFile fs p buf mode).1 p = (some (sliceData buf), none) := by
  obtain ⟨h1, m, h2⟩ := osWriteFile_post fs p buf mode hw
  unfold osReadFile
  rw [h1, h2]

theorem safeWrite_is_osWriteFile (fs : FS) (path : Path) (buf : ByteSlice)
    (hw : (safeWrite fs path buf).2 = none) :
    ∃ fs1, safeWrite fs path buf = osWriteFile fs1 path buf fileMode := by
  unfold safeWrite at hw ⊢
  simp only [] at hw ⊢
  cases hst : osStat fs (filepathDir path) with
  | ok n => exact ⟨fs, rfl⟩
  | error e =>
    rw [hst] at hw
    simp only [] at hw ⊢
    by_cases hne : osIsNotExist e = true
    · rw [if_pos hne] at hw ⊢
      rcases hmk : osMkdirAll fs (filepathDir path) dirMode with ⟨fs1, _ | e1⟩
      · exact ⟨fs1, rfl⟩
      · rw [hmk] at hw
        cases hw
    · rw [if_neg hne]
      exact ⟨fs, rfl⟩

theorem read_after_safeWrite {H : Type} (ops : HashOps H) (fs : FS) (path : Path)
    (buf : ByteSlice) (oldHash : H) (hw : (safeWrite fs path buf).2 = none) :
    FileVehicle.Read ops (FileVehicle.mk path) (safeWrite fs path buf).1 oldHash =
      ReadResult.mk (some (sliceData buf)) (ops.MakeHash (sliceData buf)) none := by
  obtain ⟨fs1, h1⟩ := safeWrite_is_osWriteFile fs path buf hw
  rw [h1] at hw ⊢
  unfold FileVehicle.Read
  simp only [osReadFile_after_osWriteFile fs1 path buf fileMode hw, sliceData]

theorem walk_of_statFrom_error (fs : FS) (rest : List String) :
    ∀ (pre : Path) (e : GoError), statFrom fs pre rest = Except.error e →
      walk fs pre rest = some e := by
  induction rest with
  | nil =>
    intro pre e hst
    simp only [statFrom] at hst
    simp only [walk, dirCheck]
    cases hfs : fs pre with
    | none => rw [hfs] at hst; cases hst; rfl
    | some n => rw [hfs] at hst; cases hst
  | cons x xs ih =>
    intro pre e hst
    simp only [statFrom] at hst
    simp only [walk]
    cases hd : dirCheck fs pre with
    | some e1 => rw [hd] at hst; cases hst; rfl
    | none => rw [hd] at hst; exact ih _ _ hst

theorem walk_of_statFrom_dir (fs : FS) (rest : List String) :
    ∀ (pre : Path) (m : Nat), statFrom fs pre rest = Except.ok (Node.dir m) →
      walk fs pre rest = none := by
  induction rest with
  | nil =>
    intro pre m hst
    simp only [statFrom] at hst
    simp only [walk, dirCheck]
    cases hfs : fs pre with
    | none => rw [hfs] at hst; cases hst
    | some n => rw [hfs] at hst; cases hst; rfl
  | cons x xs ih =>
    intro pre m hst
    simp only [statFrom] at hst
    simp only [walk]
    cases hd : dirCheck fs pre with
    | some e1 => rw [hd] at hst; cases hst
    | none => rw [hd] at hst; exact ih _ _ hst

theorem statFrom_ok_lookup (fs : FS) (rest : List String) :
    ∀ (pre : Path) (n : Node), statFrom fs pre rest = Except.ok n →
      fs (pre ++ rest) = some n := by
  induction rest with
  | nil =>
    intro pre n hst
    simp only [statFrom] at hst
    cases hfs : fs pre with
    | none => rw [hfs] at hst; cases hst
    | some k => rw [hfs] at hst; cases hst; simpa using hfs
  | cons x xs ih =>
    intro pre n hst
    simp only [statFrom] at hst
    cases hd : dirCheck fs pre with
    | some e1 => rw [hd] at hst; cases hst
    | none =>
      rw [hd] at hst
      have := ih _ _ hst
      simpa using this

theorem NoFileAlong.head {fs : FS} {pre : Path} {rest : List String}
    (hno : NoFileAlong fs pre rest) : ∀ m c, fs pre ≠ some (Node.file m c) := by
  intro m c
  have := hno 0 (Nat.zero_le _) m c
  simpa using this

theorem NoFileAlong.tail {fs : FS} {pre : Path} {x : String} {xs : List String}
    (hno : NoFileAlong fs pre (x :: xs)) : NoFileAlong fs (pre ++ [x]) xs := by
  intro n hn m c
  have := hno (n + 1) (by simpa using hn) m c
  simpa using this

theorem walk_error_is_ENOENT (fs : FS) (rest : List String) :
    ∀ (pre : Path) (e : GoError), NoFileAlong fs pre rest → walk fs pre rest = some e →
      e = GoError.errno Errno.ENOENT := by
  have hcheck : ∀ (pre : Path) (e : GoError), (∀ m c, fs pre ≠ some (Node.file m c)) →
      dirCheck fs pre = some e → e = GoError.errno Errno.ENOENT := by
    intro pre e hnf hd
    unfold dirCheck at hd
    cases hfs : fs pre with
    | none => rw [hfs] at hd; cases hd; rfl
    | some n =>
      cases n with
      | dir m => rw [hfs] at hd; cases hd
      | file m c => exact absurd hfs (hnf m c)
  induction rest with
  | nil =>
    intro pre e hno hw
    exact hcheck pre e hno.head (by simpa [walk] using hw)
  | cons x xs ih =>
    intro pre e hno hw
    simp only [walk] at hw
    cases hd : dirCheck fs pre with
    | some e1 =>
      rw [hd] at hw
      cases hw
      exact hcheck pre e hno.head hd
    | none =>
      rw [hd] at hw
      exact ih _ _ hno.tail hw

theorem ensureDir_spec (mode : Nat) (fs : FS) (p : Path)
    (hnf : ∀ m c, fs p ≠ some (Node.file m c)) :
    (ensureDir mode fs p).2 = none ∧
      (∃ m, (ensureDir mode fs p).1 p = some (Node.dir m)) ∧
      (∀ q, q ≠ p → (ensureDir mode fs p).1 q = fs q) ∧
      (∀ q n, fs q = some n → (ensureDir mode fs p).1 q = some n) := by
  unfold ensureDir
  cases hfs : fs p with
  | none =>
    refine ⟨rfl, ⟨mode, by simp [fsUpdate]⟩, ?_, ?_⟩
    · intro q hq
      simp [fsUpdate, hq]
    · intro q n hq
      have hne : q ≠ p := by
        intro h
        rw [h, hfs] at hq
        cases hq
      simp [fsUpdate, hne, hq]
  | some n =>
    cases n with
    | dir m => exact ⟨rfl, ⟨m, hfs⟩, fun _ _ => rfl, fun _ _ hq => hq⟩
    | file m c => exact absurd hfs (hnf m c)

theorem mkdirFrom_spec (mode : Nat) (rest : List String) :
    ∀ (fs : FS) (pre : Path), NoFileAlong fs pre rest →
      (mkdirFrom mode fs pre rest).2 = none ∧
        walk (mkdirFrom mode fs pre rest).1 pre rest = none ∧
        (∀ q : Path, pre.length + rest.length < q.length →
          (mkdirFrom mode fs pre rest).1 q = fs q) ∧
        (∀ q n, fs q = some n → (mkdirFrom mode fs pre rest).1 q = some n) := by
  induction rest with
  | nil =>
    intro fs pre hno
    obtain ⟨h1, ⟨m, h2⟩, h3, h4⟩ := ensureDir_spec mode fs pre hno.head
    simp only [mkdirFrom, walk, dirCheck]
    refine ⟨h1, by rw [h2], ?_, h4⟩
    intro q hlen
    apply h3
    intro hq
    subst hq
    simp at hlen
  | cons x xs ih =>
    intro fs pre hno
    obtain ⟨h1, ⟨m, h2⟩, h3, h4⟩ := ensureDir_spec mode fs pre hno.head
    simp only [mkdirFrom]
    rcases hed : ensureDir mode fs pre with ⟨fs1, _ | e⟩
    · rw [hed] at h1 h2 h3 h4
      simp only [] at h2 h3 h4 ⊢
      have hno1 : NoFileAlong fs1 (pre ++ [x]) xs := by
        intro n hn k c
        have hne : pre ++ [x] ++ xs.take n ≠ pre := by
          intro heq
          have := congrArg List.length heq
          simp at this
        rw [h3 _ hne]
        exact hno.tail n hn k c
      obtain ⟨i1, i2, i3, i4⟩ := ih fs1 (pre ++ [x]) hno1
      refine ⟨i1, ?_, ?_, ?_⟩
      · simp only [walk, dirCheck]
        rw [i4 pre _ h2]
        exact i2
      · intro q hlen
        rw [i3 q (by simp at hlen ⊢; omega)]
        apply h3
        intro hq
        subst hq
        simp at hlen
      · intro q n hq
        exact i4 q n (h4 q n hq)
    · rw [hed] at h1
      cases h1

theorem noFileAlong_dir (fs : FS) (path : Path)
    (hanc : ∀ n, n < path.length → ∀ m c, fs (path.take n) ≠ some (Node.file m c))
    (hp : path ≠ []) : NoFileAlong fs [] (filepathDir path) := by
  intro n hn m c
  have hpos : 0 < path.length := List.length_pos.mpr hp
  simp only [filepathDir, List.length_dropLast] at hn
  have htake : (filepathDir path).take n = path.take n := by
    simp only [filepathDir, List.dropLast_eq_take, List.take_take]
    congr 1
    omega
  rw [List.nil_append, htake]
  exact hanc n (by omega) m c

theorem osWriteFile_succeeds (fs : FS) (p : Path) (buf : ByteSlice) (mode : Nat)
    (hwalk : walk fs [] (filepathDir p) = none) (hnd : ∀ m, fs p ≠ some (Node.dir m)) :
    (osWriteFile fs p buf mode).2 = none := by
  unfold osWriteFile
  rw [hwalk]
  cases hfs : fs p with
  | none => rfl
  | some n =>
    cases n with
    | dir m => exact absurd hfs (hnd m)
    | file m c => rfl

theorem safeWrite_succeeds (fs : FS) (path : Path) (buf : ByteSlice)
    (hp : path ≠ [])
    (hanc : ∀ n, n < path.length → ∀ m c, fs (path.take n) ≠ some (Node.file m c))
    (hnd : ∀ m, fs path ≠ some (Node.dir m)) :
    (safeWrite fs path buf).2 = none := by
  have hno := noFileAlong_dir fs path hanc hp
  have hpos : 0 < path.length := List.length_pos.mpr hp
  unfold safeWrite
  simp only []
  cases hst : osStat fs (filepathDir path) with
  | ok n =>
    simp only []
    have hlook := statFrom_ok_lookup fs _ _ _ hst
    cases n with
    | file m c =>
      have := hno (filepathDir path).length (Nat.le_refl _) m c
      rw [List.take_length] at this
      exact absurd hlook this
    | dir m =>
      exact osWriteFile_succeeds fs path buf fileMode
        (walk_of_statFrom_dir fs _ _ m hst) hnd
  | error e =>
    simp only []
    have hw := walk_of_statFrom_error fs _ _ e hst
    have he := walk_error_is_ENOENT fs _ _ e hno hw
    subst he
    simp only [osIsNotExist, if_true]
    obtain ⟨m1, m2, m3, _⟩ := mkdirFrom_spec dirMode (filepathDir path) fs [] hno
    rcases hmk : osMkdirAll fs (filepathDir path) dirMode with ⟨fs1, _ | e1⟩
    · simp only []
      unfold osMkdirAll at hmk
      rw [hmk] at m2 m3
      simp only [] at m2 m3
      apply osWriteFile_succeeds fs1 path buf fileMode m2
      intro m
      rw [m3 path (by simp [filepathDir, List.length_dropLast]; omega)]
      exact hnd m
    · unfold osMkdirAll at hmk
      rw [hmk] at m1
      cases m1

theorem walk_none_noFile (fs : FS) (rest : List String) :
    ∀ pre : Path, walk fs pre rest = none → NoFileAlong fs pre rest := by
  have hcheck : ∀ pre : Path, dirCheck fs pre = none →
      ∀ m c, fs pre ≠ some (Node.file m c) := by
    intro pre hd m c hfs
    simp [dirCheck, hfs] at hd
  induction rest with
  | nil =>
    intro pre hw n hn m c
    have hd : dirCheck fs pre = none := by simpa [walk] using hw
    simpa using hcheck pre hd m c
  | cons x xs ih =>
    intro pre hw n hn m c
    simp only [walk] at hw
    cases hd : dirCheck fs pre with
    | some e => rw [hd] at hw; cases hw
    | none =>
      rw [hd] at hw
      cases n with
      | zero => simpa using hcheck pre hd m c
      | succ k =>
        have := ih (pre ++ [x]) hw k (by simpa using hn) m c
        simpa using this

theorem ancestors_of_noFileAlong (fs : FS) (path : Path)
    (hno : NoFileAlong fs [] (filepathDir path)) :
    ∀ n, n < path.length → ∀ m c, fs (path.take n) ≠ some (Node.file m c) := by
  intro n hn m c
  have hle : n ≤ (filepathDir path).length := by
    simp only [filepathDir, List.length_dropLast]
    omega
  have htake : (filepathDir path).take n = path.take n := by
    simp only [filepathDir, List.dropLast_eq_take, List.take_take]
    congr 1
    omega
  have := hno n hle m c
  rwa [List.nil_append, htake] at this

theorem safeWrite_post (fs : FS) (path : Path) (buf : ByteSlice)
    (hw : (safeWrite fs path buf).2 = none) :
    path ≠ [] ∧
      (∀ n, n < path.length → ∀ m c,
        (safeWrite fs path buf).1 (path.take n) ≠ some (Node.file m c)) ∧
      (∀ m, (safeWrite fs path buf).1 path ≠ some (Node.dir m)) := by
  obtain ⟨fs1, h1⟩ := safeWrite_is_osWriteFile fs path buf hw
  rw [h1] at hw ⊢
  obtain ⟨p1, m, p2⟩ := osWriteFile_post fs1 path buf fileMode hw
  refine ⟨?_, ancestors_of_noFileAlong _ path (walk_none_noFile _ _ _ p1), ?_⟩
  · intro hnil
    subst hnil
    obtain ⟨k, hk⟩ := walk_root_dir _ _ p1
    rw [hk] at p2
    cases p2
  · intro k hk
    rw [p2] at hk
    cases hk

/-! ## The claims -/

/-- C1. Not-modified path of `HTTPVehicle.Read`: when the call set
`If-None-Match` (the flag `setIfNoneMatch` is true) and the transport answers the
request with status 304, the results are nil bytes, the caller's `oldHash`
itself and a nil error. -/
theorem read_not_modified_returns_oldHash {H : Type} (ops : HashOps H) (t : Transport)
    (h : HTTPVehicle) (oldHash : H) (heap : Heap) (cache : Cache) (resp : Response)
    (hcond : (HTTPVehicle.requestHeader ops h oldHash heap cache).2.2 = true)
    (ht : t (HTTPVehicle.request ops h oldHash heap cache) = Except.ok resp)
    (hcode : resp.StatusCode = StatusNotModified) :
    (HTTPVehicle.Read ops t h oldHash heap cache).buf = none ∧
      (HTTPVehicle.Read ops t h oldHash heap cache).hash = oldHash ∧
      (HTTPVehicle.Read ops t h oldHash heap cache).err = none := by
  rw [Read_of_not_modified ops t h oldHash heap cache resp ht hcond hcode]
  exact ⟨rfl, rfl, rfl⟩

theorem read_not_modified_returns_oldHash_witness :
    (HTTPVehicle.Read sumHash (always (mkResponse 304 "304 Not Modified" [] [] none))
        exVehicle 7 [] exCache).buf = none ∧
      (HTTPVehicle.Read sumHash (always (mkResponse 304 "304 Not Modified" [] [] none))
        exVehicle 7 [] exCache).hash = 7 ∧
      (HTTPVehicle.Read sumHash (always (mkResponse 304 "304 Not Modified" [] [] none))
        exVehicle 7 [] exCache).err = none :=
  read_not_modified_returns_oldHash sumHash
    (always (mkResponse 304 "304 Not Modified" [] [] none)) exVehicle 7 [] exCache
    (mkResponse 304 "304 Not Modified" [] [] none) (by decide) rfl rfl

/-- C2. Success path of `HTTPVehicle.Read`: for a status in [200,299] and a body
`B` read without error, the results are `B`, `MakeHash B` and a nil error, and
afterwards the cache holds for the vehicle's URL the bytes of `MakeHash B` with
the value of the response's `ETag` header, `Header.Get("ETag")`: the first value
the response map holds under the canonical name `Etag`, and the empty string
when the map has no entry under that name. -/
theorem read_success_returns_body_and_caches {H : Type} (ops : HashOps H) (t : Transport)
    (h : HTTPVehicle) (oldHash : H) (heap : Heap) (cache : Cache) (resp : Response)
    (ht : t (HTTPVehicle.request ops h oldHash heap cache) = Except.ok resp)
    (hs : 200 ≤ resp.StatusCode ∧ resp.StatusCode ≤ 299)
    (hb : resp.Body.err = none) :
    (HTTPVehicle.Read ops t h oldHash heap cache).buf = some resp.Body.data ∧
      (HTTPVehicle.Read ops t h oldHash heap cache).hash = ops.MakeHash resp.Body.data ∧
      (HTTPVehicle.Read ops t h oldHash heap cache).err = none ∧
      GetETagWithHash (HTTPVehicle.Read ops t h oldHash heap cache).cache h.url =
        (ops.Bytes (ops.MakeHash resp.Body.data), headerGet resp.Header "ETag") ∧
      (∀ (v : String) (vs : List String), headerValues resp.Header "Etag" = some (v :: vs) →
        GetETagWithHash (HTTPVehicle.Read ops t h oldHash heap cache).cache h.url =
          (ops.Bytes (ops.MakeHash resp.Body.data), v)) ∧
      (headerValues resp.Header "Etag" = none →
        GetETagWithHash (HTTPVehicle.Read ops t h oldHash heap cache).cache h.url =
          (ops.Bytes (ops.MakeHash resp.Body.data), "")) := by
  rw [Read_of_success ops t h oldHash heap cache resp ht hs hb]
  have hget : GetETagWithHash
      (SetETagWithHash cache h.url (ops.Bytes (ops.MakeHash resp.Body.data))
        (headerGet resp.Header "ETag")) h.url =
      (ops.Bytes (ops.MakeHash resp.Body.data), headerGet resp.Header "ETag") := by
    simp [GetETagWithHash, SetETagWithHash]
  refine ⟨rfl, rfl, rfl, hget, ?_, ?_⟩
  · intro v vs hv
    rw [← headerGet_of_etag resp.Header v vs hv]
    exact hget
  · intro hnone
    rw [← headerGet_of_no_etag resp.Header hnone]
    exact hget

theorem read_success_returns_body_and_caches_witness :
    (HTTPVehicle.Read sumHash (always (mkResponse 200 "200 OK" [("Etag", ["e2"])] [1, 2] none))
        exVehicle 7 [] exCache).buf = some [1, 2] ∧
      (HTTPVehicle.Read sumHash (always (mkResponse 200 "200 OK" [("Etag", ["e2"])] [1, 2] none))
        exVehicle 7 [] exCache).hash = 4 ∧
      GetETagWithHash
        (HTTPVehicle.Read sumHash
          (always (mkResponse 200 "200 OK" [("Etag", ["e2"])] [1, 2] none))
          exVehicle 7 [] exCache).cache "http://x/r" = (some [4], "e2") :=
  have w := read_success_returns_body_and_caches sumHash
    (always (mkResponse 200 "200 OK" [("Etag", ["e2"])] [1, 2] none)) exVehicle 7 [] exCache
    (mkResponse 200 "200 OK" [("Etag", ["e2"])] [1, 2] none) rfl (by decide) rfl
  ⟨w.1, w.2.1, w.2.2.2.2.1 "e2" [] (by decide)⟩

/-- C3. Status-error path of `HTTPVehicle.Read`: for a status outside [200,299]
that is not a 304 answering a request on which the call set `If-None-Match`, the
results are nil bytes, the zero hash and the error made from the response's
status text. The codes 199 and 300, and a 304 answering a request on which the
call did not set `If-None-Match`, are instances. -/
theorem read_status_error {H : Type} (ops : HashOps H) (t : Transport)
    (h : HTTPVehicle) (oldHash : H) (heap : Heap) (cache : Cache) (resp : Response)
    (ht : t (HTTPVehicle.request ops h oldHash heap cache) = Except.ok resp)
    (hs : resp.StatusCode < 200 ∨ resp.StatusCode > 299)
    (hn : ¬ ((HTTPVehicle.requestHeader ops h oldHash heap cache).2.2 = true ∧
        resp.StatusCode = StatusNotModified)) :
    (HTTPVehicle.Read ops t h oldHash heap cache).buf = none ∧
      (HTTPVehicle.Read ops t h oldHash heap cache).hash = ops.zero ∧
      (HTTPVehicle.Read ops t h oldHash heap cache).err = some (errorsNew resp.Status) := by
  rw [Read_of_status_error ops t h oldHash heap cache resp ht hs hn]
  exact ⟨rfl, rfl, rfl⟩

theorem read_status_error_witness :
    (HTTPVehicle.Read sumHash (always (mkResponse 304 "304 Not Modified" [] [] none))
        exVehicle 9 [] exCache).buf = none ∧
      (HTTPVehicle.Read sumHash (always (mkResponse 304 "304 Not Modified" [] [] none))
        exVehicle 9 [] exCache).hash = 0 ∧
      (HTTPVehicle.Read sumHash (always (mkResponse 304 "304 Not Modified" [] [] none))
        exVehicle 9 [] exCache).err = some (GoError.text "304 Not Modified") :=
  read_status_error sumHash (always (mkResponse 304 "304 Not Modified" [] [] none))
    exVehicle 9 [] exCache (mkResponse 304 "304 Not Modified" [] [] none) rfl
    (by decide) (by decide)

/-- C4, as the claim states it, fails in its last part: with a valid `oldHash`
equal to the cached hash but no ETag on record, the request of a vehicle whose
configured header set has an `If-None-Match` entry of its own still carries
that entry, so it is not an unconditional GET. -/
theorem unflagged_request_carries_configured_if_none_match :
    (sumHash.IsValid 7 = true ∧
        sumHash.EqualBytes 7 (GetETagWithHash exCacheNoTag exVehicleHdr.url).1 = true ∧
        (GetETagWithHash exCacheNoTag exVehicleHdr.url).2 = "") ∧
      (HTTPVehicle.Read sumHash (always (mkResponse 200 "200 OK" [] [] none)) exVehicleHdr 7
        exHeapINM exCacheNoTag).setIfNoneMatch = false ∧
      carriesIfNoneMatch
        (HTTPVehicle.Read sumHash (always (mkResponse 200 "200 OK" [] [] none)) exVehicleHdr 7
          exHeapINM exCacheNoTag).sent.header = true := by
  decide

/-- C4, amended. `HTTPVehicle.Read` sets `If-None-Match` (sends a conditional
request) if and only if `oldHash` is valid, the hash bytes cached for the
vehicle's URL equal `oldHash`, and the ETag cached for that URL is not empty.
When it does, the request is a GET to the vehicle's URL whose `If-None-Match`
entry is the single value of the cached ETag. When one of the three fails,
nothing is attached: the request is a GET carrying exactly the configured
headers, and no map is allocated or changed. -/
theorem conditional_request_iff {H : Type} (ops : HashOps H) (t : Transport)
    (h : HTTPVehicle) (oldHash : H) (heap : Heap) (cache : Cache) :
    ((HTTPVehicle.Read ops t h oldHash heap cache).setIfNoneMatch = true ↔
        (ops.IsValid oldHash = true ∧
          ops.EqualBytes oldHash (GetETagWithHash cache h.url).1 = true ∧
          (GetETagWithHash cache h.url).2 ≠ "")) ∧
      ((HTTPVehicle.Read ops t h oldHash heap cache).setIfNoneMatch = true →
        headerLookup (HTTPVehicle.Read ops t h oldHash heap cache).sent.header "If-None-Match" =
          some [(GetETagWithHash cache h.url).2]) ∧
      ((HTTPVehicle.Read ops t h oldHash heap cache).setIfNoneMatch = false →
        (HTTPVehicle.Read ops t h oldHash heap cache).sent.header = headerDeref heap h.header ∧
          (HTTPVehicle.Read ops t h oldHash heap cache).heap = heap) ∧
      (HTTPVehicle.Read ops t h oldHash heap cache).sent.method = MethodGet ∧
      (HTTPVehicle.Read ops t h oldHash heap cache).sent.url = h.url := by
  rw [Read_flag, Read_sent, Read_heap]
  refine ⟨requestHeader_flag_iff ops h oldHash heap cache, ?_, ?_, ?_, ?_⟩
  · intro hf
    unfold HTTPVehicle.request
    rw [requestHeader_of_flag ops h oldHash heap cache hf]
    simp only [headerDeref, headerLookup, heapRead_append_length,
      headerValues_headerSet_self]
  · intro hf
    unfold HTTPVehicle.request
    rw [requestHeader_of_not_flag ops h oldHash heap cache hf]
    exact ⟨rfl, rfl⟩
  · unfold HTTPVehicle.request
    rcases HTTPVehicle.requestHeader ops h oldHash heap cache with ⟨_, _, _⟩
    rfl
  · unfold HTTPVehicle.request
    rcases HTTPVehicle.requestHeader ops h oldHash heap cache with ⟨_, _, _⟩
    rfl

theorem conditional_request_iff_witness :
    headerLookup (HTTPVehicle.Read sumHash (failing (GoError.text "timeout")) exVehicleHdr 7
        exHeap exCache).sent.header "If-None-Match" = some ["e1"] ∧
      (HTTPVehicle.Read sumHash (failing (GoError.text "timeout")) exVehicleHdr 9
        exHeap exCache).sent.header = some [("User-Agent", ["m"])] :=
  ⟨(conditional_request_iff sumHash (failing (GoError.text "timeout")) exVehicleHdr 7
      exHeap exCache).2.1 (by decide),
    ((conditional_request_iff sumHash (failing (GoError.text "timeout")) exVehicleHdr 9
      exHeap exCache).2.2.1 (by decide)).1⟩

/-- C5, as the claim states it, fails: a vehicle built by `NewHTTPVehicle` whose
configured header set has an `If-None-Match` entry of its own sends that entry
with an invalid `oldHash` too. -/
theorem invalid_hash_request_carries_configured_if_none_match :
    sumHash.IsValid 0 = false ∧
      carriesIfNoneMatch
        (HTTPVehicle.Read sumHash (always (mkResponse 200 "200 OK" [] [] none))
          (NewHTTPVehicle "http://x/r" ["c", "r"] "" (some 0) 20) 0 exHeapINM
          emptyCache).sent.header = true := by
  decide

/-- C5, amended. For every vehicle built by `NewHTTPVehicle` and every invalid
`oldHash`, `Read` attaches nothing: the GET carries exactly the configured
headers (none at all when they are nil), so it has an `If-None-Match` entry
only if the configured header set has one. -/
theorem invalid_hash_sends_configured_headers {H : Type} (ops : HashOps H) (t : Transport)
    (url : String) (path : Path) (proxy : String) (header : Header) (timeout : Int)
    (oldHash : H) (heap : Heap) (cache : Cache) (hinv : ops.IsValid oldHash = false) :
    (HTTPVehicle.Read ops t (NewHTTPVehicle url path proxy header timeout) oldHash heap
        cache).setIfNoneMatch = false ∧
      (HTTPVehicle.Read ops t (NewHTTPVehicle url path proxy header timeout) oldHash heap
        cache).sent.header = headerDeref heap header ∧
      carriesIfNoneMatch (HTTPVehicle.Read ops t (NewHTTPVehicle url path proxy header timeout)
        oldHash heap cache).sent.header = carriesIfNoneMatch (headerDeref heap header) ∧
      (header = none →
        (HTTPVehicle.Read ops t (NewHTTPVehicle url path proxy header timeout) oldHash heap
          cache).sent.header = none) := by
  have hrh : HTTPVehicle.requestHeader ops (NewHTTPVehicle url path proxy header timeout)
      oldHash heap cache = (heap, header, false) := by
    simp [HTTPVehicle.requestHeader, hinv, NewHTTPVehicle]
  have hsent : (HTTPVehicle.Read ops t (NewHTTPVehicle url path proxy header timeout) oldHash
      heap cache).sent.header = headerDeref heap header := by
    rw [Read_sent]
    unfold HTTPVehicle.request
    rw [hrh]
  refine ⟨?_, hsent, ?_, ?_⟩
  · rw [Read_flag, hrh]
  · rw [hsent]
  · intro hnil
    rw [hsent, hnil]
    rfl

theorem invalid_hash_sends_configured_headers_witness :
    (HTTPVehicle.Read sumHash (always (mkResponse 200 "200 OK" [] [] none))
        (NewHTTPVehicle "http://x/r" ["c", "r"] "" (some 0) 20) 0 exHeap
        exCache).sent.header = some [("User-Agent", ["m"])] :=
  (invalid_hash_sends_configured_headers sumHash (always (mkResponse 200 "200 OK" [] [] none))
    "http://x/r" ["c", "r"] "" (some 0) 20 0 exHeap exCache (by decide)).2.1

/-- C6, as the claim states it, fails: a response with status 200 whose body
delivers two bytes and then fails makes `HTTPVehicle.Read` return those two
bytes together with the error. -/
theorem body_read_error_returns_bytes_read :
    (HTTPVehicle.Read sumHash
        (always (mkResponse 200 "200 OK" [] [1, 2] (some (GoError.text "unexpected EOF"))))
        exVehicle 0 [] emptyCache).err = some (GoError.text "unexpected EOF") ∧
      (HTTPVehicle.Read sumHash
        (always (mkResponse 200 "200 OK" [] [1, 2] (some (GoError.text "unexpected EOF"))))
        exVehicle 0 [] emptyCache).buf = some [1, 2] := by
  decide

/-- C6, amended. Every `FileVehicle.Read` or `HTTPVehicle.Read` call that returns
an error returns the zero hash. The bytes returned with the error are nil on a
transport failure, on a status error and when the file cannot be opened; when
the failure comes while reading (the response body after a status in
[200,299], or the opened file), they are the bytes that `io.ReadAll` or
`os.ReadFile` handed back with the error. -/
theorem error_results {H : Type} (ops : HashOps H) (t : Transport) (h : HTTPVehicle)
    (oldHash : H) (heap : Heap) (cache : Cache) (f : FileVehicle) (fs : FS) (oldHash2 : H) :
    ((HTTPVehicle.Read ops t h oldHash heap cache).err ≠ none →
        (HTTPVehicle.Read ops t h oldHash heap cache).hash = ops.zero ∧
        ((∀ resp, t (HTTPVehicle.request ops h oldHash heap cache) = Except.ok resp →
            resp.StatusCode < 200 ∨ resp.StatusCode > 299) →
          (HTTPVehicle.Read ops t h oldHash heap cache).buf = none) ∧
        (∀ resp, t (HTTPVehicle.request ops h oldHash heap cache) = Except.ok resp →
          200 ≤ resp.StatusCode → resp.StatusCode ≤ 299 →
          (HTTPVehicle.Read ops t h oldHash heap cache).buf = (ioReadAll resp.Body).1 ∧
            (HTTPVehicle.Read ops t h oldHash heap cache).err = (ioReadAll resp.Body).2)) ∧
      ((FileVehicle.Read ops f fs oldHash2).err ≠ none →
        (FileVehicle.Read ops f fs oldHash2).hash = ops.zero ∧
        (FileVehicle.Read ops f fs oldHash2).buf = (osReadFile fs f.path).1 ∧
        (FileVehicle.Read ops f fs oldHash2).err = (osReadFile fs f.path).2 ∧
        ((walk fs [] (filepathDir f.path) ≠ none ∨ fs f.path = none) →
          (FileVehicle.Read ops f fs oldHash2).buf = none)) := by
  constructor
  · cases ht : t (HTTPVehicle.request ops h oldHash heap cache) with
    | error e =>
      rw [Read_of_transport_error ops t h oldHash heap cache e ht]
      intro _
      refine ⟨rfl, fun _ => rfl, ?_⟩
      intro resp hr
      cases hr
    | ok resp =>
      by_cases hs : resp.StatusCode < 200 ∨ resp.StatusCode > 299
      · by_cases hn : (HTTPVehicle.requestHeader ops h oldHash heap cache).2.2 = true ∧
            resp.StatusCode = StatusNotModified
        · rw [Read_of_not_modified ops t h oldHash heap cache resp ht hn.1 hn.2]
          intro herr
          exact absurd rfl herr
        · rw [Read_of_status_error ops t h oldHash heap cache resp ht hs hn]
          intro _
          refine ⟨rfl, fun _ => rfl, ?_⟩
          intro r hr h1 h2
          cases hr
          omega
      · have hs2 : 200 ≤ resp.StatusCode ∧ resp.StatusCode ≤ 299 := by omega
        cases hb : resp.Body.err with
        | some e =>
          rw [Read_of_body_error ops t h oldHash heap cache resp e ht hs2 hb]
          intro _
          refine ⟨rfl, ?_, ?_⟩
          · intro hall
            exact absurd (hall resp rfl) hs
          · intro r hr _ _
            cases hr
            simp [ioReadAll, hb]
        | none =>
          rw [Read_of_success ops t h oldHash heap cache resp ht hs2 hb]
          intro herr
          exact absurd rfl herr
  · unfold FileVehicle.Read
    rcases hrd : osReadFile fs f.path with ⟨b, _ | e⟩
    · intro herr
      exact absurd rfl herr
    · intro _
      refine ⟨rfl, rfl, rfl, ?_⟩
      intro hopen
      simp only []
      unfold osReadFile at hrd
      rcases hopen with hwalk | hmiss
      · cases hw : walk fs [] (filepathDir f.path) with
        | none => exact absurd hw hwalk
        | some e1 =>
          rw [hw] at hrd
          simp only [Prod.mk.injEq] at hrd
          exact hrd.1.symm
      · cases hw : walk fs [] (filepathDir f.path) with
        | none =>
          rw [hw, hmiss] at hrd
          simp only [Prod.mk.injEq] at hrd
          exact hrd.1.symm
        | some e1 =>
          rw [hw] at hrd
          simp only [Prod.mk.injEq] at hrd
          exact hrd.1.symm

theorem error_results_witness :
    (HTTPVehicle.Read sumHash (failing (GoError.text "timeout")) exVehicle 7 []
        exCache).hash = 0 ∧
      (HTTPVehicle.Read sumHash (failing (GoError.text "timeout")) exVehicle 7 []
        exCache).buf = none ∧
      (FileVehicle.Read sumHash (NewFileVehicle ["etc", "r.yaml"]) rootOnly 7).hash = 0 ∧
      (FileVehicle.Read sumHash (NewFileVehicle ["etc", "r.yaml"]) rootOnly 7).buf = none :=
  have w := error_results sumHash (failing (GoError.text "timeout")) exVehicle 7 [] exCache
    (NewFileVehicle ["etc", "r.yaml"]) rootOnly 7
  ⟨(w.1 (by decide)).1, (w.1 (by decide)).2.1 (fun _ hr => by cases hr),
    (w.2 (by decide)).1, (w.2 (by decide)).2.2.2 (Or.inl (by decide))⟩

/-- C7. One `HTTPVehicle.Read` call makes at most one `SetETagWithHash` call, and
the cache afterwards is the cache before with those calls applied. It makes one
exactly when it returns fresh bytes with no error, which is exactly when the
transport answered with a status in [200,299] and the body was read without
error; the call is for the vehicle's own URL and the pair stored for every
other URL is unchanged. On every other path (transport error, status error,
body-read error, not modified) the cache afterwards is the cache before. -/
theorem cache_written_only_on_success {H : Type} (ops : HashOps H) (t : Transport)
    (h : HTTPVehicle) (oldHash : H) (heap : Heap) (cache : Cache) :
    (HTTPVehicle.Read ops t h oldHash heap cache).sets.length ≤ 1 ∧
      (HTTPVehicle.Read ops t h oldHash heap cache).cache =
        applySets cache (HTTPVehicle.Read ops t h oldHash heap cache).sets ∧
      ((HTTPVehicle.Read ops t h oldHash heap cache).sets ≠ [] ↔
        ((HTTPVehicle.Read ops t h oldHash heap cache).err = none ∧
          (HTTPVehicle.Read ops t h oldHash heap cache).buf ≠ none)) ∧
      ((HTTPVehicle.Read ops t h oldHash heap cache).sets ≠ [] ↔
        ∃ resp, t (HTTPVehicle.request ops h oldHash heap cache) = Except.ok resp ∧
          200 ≤ resp.StatusCode ∧ resp.StatusCode ≤ 299 ∧ resp.Body.err = none) ∧
      (∀ s ∈ (HTTPVehicle.Read ops t h oldHash heap cache).sets, s.1 = h.url) ∧
      (∀ u, u ≠ h.url → (HTTPVehicle.Read ops t h oldHash heap cache).cache u = cache u) ∧
      ((HTTPVehicle.Read ops t h oldHash heap cache).sets = [] →
        (HTTPVehicle.Read ops t h oldHash heap cache).cache = cache) := by
  cases ht : t (HTTPVehicle.request ops h oldHash heap cache) with
  | error e =>
    rw [Read_of_transport_error ops t h oldHash heap cache e ht]
    refine ⟨Nat.zero_le _, rfl, ?_, ?_, ?_, fun _ _ => rfl, fun _ => rfl⟩
    · exact ⟨fun hc => absurd rfl hc, fun hc => by simp at hc⟩
    · exact ⟨fun hc => absurd rfl hc, fun ⟨r, hr, _⟩ => by simp at hr⟩
    · intro s hsm
      simp at hsm
  | ok resp =>
    by_cases hs : resp.StatusCode < 200 ∨ resp.StatusCode > 299
    · have hno : ¬ ∃ r, Except.ok resp = (Except.ok r : Except GoError Response) ∧
          200 ≤ r.StatusCode ∧ r.StatusCode ≤ 299 ∧ r.Body.err = none := by
        rintro ⟨r, hr, h1, h2, _⟩
        cases hr
        omega
      by_cases hn : (HTTPVehicle.requestHeader ops h oldHash heap cache).2.2 = true ∧
          resp.StatusCode = StatusNotModified
      · rw [Read_of_not_modified ops t h oldHash heap cache resp ht hn.1 hn.2]
        refine ⟨Nat.zero_le _, rfl, ?_, ?_, ?_, fun _ _ => rfl, fun _ => rfl⟩
        · exact ⟨fun hc => absurd rfl hc, fun hc => absurd rfl hc.2⟩
        · exact ⟨fun hc => absurd rfl hc, fun hc => absurd hc hno⟩
        · intro s hsm
          simp at hsm
      · rw [Read_of_status_error ops t h oldHash heap cache resp ht hs hn]
        refine ⟨Nat.zero_le _, rfl, ?_, ?_, ?_, fun _ _ => rfl, fun _ => rfl⟩
        · exact ⟨fun hc => absurd rfl hc, fun hc => by simp at hc⟩
        · exact ⟨fun hc => absurd rfl hc, fun hc => absurd hc hno⟩
        · intro s hsm
          simp at hsm
    · have hs2 : 200 ≤ resp.StatusCode ∧ resp.StatusCode ≤ 299 := by omega
      cases hb : resp.Body.err with
      | some e =>
        have hno : ¬ ∃ r, Except.ok resp = (Except.ok r : Except GoError Response) ∧
            200 ≤ r.StatusCode ∧ r.StatusCode ≤ 299 ∧ r.Body.err = none := by
          rintro ⟨r, hr, _, _, h3⟩
          cases hr
          rw [hb] at h3
          cases h3
        rw [Read_of_body_error ops t h oldHash heap cache resp e ht hs2 hb]
        refine ⟨Nat.zero_le _, rfl, ?_, ?_, ?_, fun _ _ => rfl, fun _ => rfl⟩
        · exact ⟨fun hc => absurd rfl hc, fun hc => by simp at hc⟩
        · exact ⟨fun hc => absurd rfl hc, fun hc => absurd hc hno⟩
        · intro s hsm
          simp at hsm
      | none =>
        rw [Read_of_success ops t h oldHash heap cache resp ht hs2 hb]
        refine ⟨Nat.le_refl _, rfl, ?_, ?_, ?_, ?_, ?_⟩
        · exact ⟨fun _ => ⟨rfl, by simp⟩, fun _ => by simp⟩
        · exact ⟨fun _ => ⟨resp, rfl, hs2.1, hs2.2, hb⟩, fun _ => by simp⟩
        · intro s hsm
          simp only [List.mem_singleton] at hsm
          rw [hsm]
        · intro u hu
          simp [SetETagWithHash, hu]
        · intro hc
          simp at hc

/-- Worked example for C7: a successful read stores the new pair for the
vehicle's URL and leaves the pair of another URL as it was. -/
theorem cache_written_only_on_success_witness :
    (HTTPVehicle.Read sumHash
        (always (mkResponse 200 "200 OK" [("Etag", ["e2"])] [1, 2] none)) exVehicle 7 []
        exCache).cache "http://y/other" = exCache "http://y/other" :=
  (cache_written_only_on_success sumHash
    (always (mkResponse 200 "200 OK" [("Etag", ["e2"])] [1, 2] none)) exVehicle 7 []
    exCache).2.2.2.2.2.1 "http://y/other" (by decide)

/-- C8. Copy-before-mutate of headers in `HTTPVehicle.Read`, for a vehicle
whose header value is nil or an allocated map: after the call the configured
header set holds what it held before (no map that existed before the call is
changed), the headers sent agree with the configured ones on every name other
than `If-None-Match`, and a later `Read` on the same vehicle that does not set
`If-None-Match` sends exactly the configured headers, whatever the first call
did. -/
theorem read_preserves_configured_headers {H : Type} (ops : HashOps H) (t : Transport)
    (h : HTTPVehicle) (oldHash : H) (heap : Heap) (cache : Cache)
    (hwf : headerAllocated heap h.header) :
    headerDeref (HTTPVehicle.Read ops t h oldHash heap cache).heap h.header =
        headerDeref heap h.header ∧
      (∀ a, a < heap.length →
        heapRead (HTTPVehicle.Read ops t h oldHash heap cache).heap a = heapRead heap a) ∧
      (∀ key, key ≠ "If-None-Match" →
        headerLookup (HTTPVehicle.Read ops t h oldHash heap cache).sent.header key =
          headerLookup (headerDeref heap h.header) key) ∧
      (∀ (t2 : Transport) (oldHash2 : H),
        (HTTPVehicle.Read ops t2 h oldHash2 (HTTPVehicle.Read ops t h oldHash heap cache).heap
          (HTTPVehicle.Read ops t h oldHash heap cache).cache).setIfNoneMatch = false →
        (HTTPVehicle.Read ops t2 h oldHash2 (HTTPVehicle.Read ops t h oldHash heap cache).heap
          (HTTPVehicle.Read ops t h oldHash heap cache).cache).sent.header =
          headerDeref heap h.header) := by
  have hfr : ∀ a, a < heap.length →
      heapRead (HTTPVehicle.Read ops t h oldHash heap cache).heap a = heapRead heap a := by
    intro a ha
    rw [Read_heap]
    exact requestHeader_heap_frame ops h oldHash heap cache a ha
  have hderef := headerDeref_frame heap (HTTPVehicle.Read ops t h oldHash heap cache).heap
    h.header hwf hfr
  refine ⟨hderef, hfr, ?_, ?_⟩
  · intro key hk
    rw [Read_sent]
    exact request_header_agrees ops h oldHash heap cache key hk
  · intro t2 oldHash2 hf
    rw [Read_flag] at hf
    rw [Read_sent]
    unfold HTTPVehicle.request
    rw [requestHeader_of_not_flag ops h oldHash2 _ _ hf]
    exact hderef

theorem read_preserves_configured_headers_witness :
    headerDeref (HTTPVehicle.Read sumHash
        (always (mkResponse 200 "200 OK" [("Etag", ["e2"])] [1, 2] none)) exVehicleHdr 7
        exHeap exCache).heap (some 0) = some [("User-Agent", ["m"])] ∧
      (HTTPVehicle.Read sumHash
        (always (mkResponse 200 "200 OK" [("Etag", ["e2"])] [1, 2] none)) exVehicleHdr 7
        exHeap exCache).sent.header =
          some [("If-None-Match", ["e1"]), ("User-Agent", ["m"])] ∧
      (HTTPVehicle.Read sumHash (failing (GoError.text "timeout")) exVehicleHdr 7
        (HTTPVehicle.Read sumHash
          (always (mkResponse 200 "200 OK" [("Etag", ["e2"])] [1, 2] none)) exVehicleHdr 7
          exHeap exCache).heap
        (HTTPVehicle.Read sumHash
          (always (mkResponse 200 "200 OK" [("Etag", ["e2"])] [1, 2] none)) exVehicleHdr 7
          exHeap exCache).cache).sent.header = some [("User-Agent", ["m"])] :=
  have w := read_preserves_configured_headers sumHash
    (always (mkResponse 200 "200 OK" [("Etag", ["e2"])] [1, 2] none)) exVehicleHdr 7
    exHeap exCache (by decide)
  ⟨w.1, by decide, w.2.2.2 (failing (GoError.text "timeout")) 7 (by decide)⟩

/-- C9. `FileVehicle` write then read, over the model of the files: when
`Write(b)` returns no error, the `Read` that follows returns the bytes of `b`
(as a non-nil slice), `MakeHash` of them and a nil error, for every `oldHash`
and whatever the files held before. A further `Write` to the same path then
returns no error and its bytes are what the next `Read` returns. `Write`
returns no error whenever no ancestor of the path is a regular file and the
path is not a directory: missing parent directories are created. -/
theorem file_write_then_read {H : Type} (ops : HashOps H) (path : Path) (fs : FS)
    (buf : ByteSlice) (oldHash : H) :
    ((FileVehicle.Write (NewFileVehicle path) fs buf).2 = none →
        FileVehicle.Read ops (NewFileVehicle path)
          (FileVehicle.Write (NewFileVehicle path) fs buf).1 oldHash =
          ReadResult.mk (some (sliceData buf)) (ops.MakeHash (sliceData buf)) none) ∧
      ((FileVehicle.Write (NewFileVehicle path) fs buf).2 = none →
        ∀ (buf2 : ByteSlice) (oldHash2 : H),
          (FileVehicle.Write (NewFileVehicle path)
            (FileVehicle.Write (NewFileVehicle path) fs buf).1 buf2).2 = none ∧
          FileVehicle.Read ops (NewFileVehicle path)
            (FileVehicle.Write (NewFileVehicle path)
              (FileVehicle.Write (NewFileVehicle path) fs buf).1 buf2).1 oldHash2 =
            ReadResult.mk (some (sliceData buf2)) (ops.MakeHash (sliceData buf2)) none) ∧
      (path ≠ [] →
        (∀ n, n < path.length → ∀ m c, fs (path.take n) ≠ some (Node.file m c)) →
        (∀ m, fs path ≠ some (Node.dir m)) →
        (FileVehicle.Write (NewFileVehicle path) fs buf).2 = none) := by
  simp only [FileVehicle.Write, NewFileVehicle]
  refine ⟨?_, ?_, ?_⟩
  · intro hw
    exact read_after_safeWrite ops fs path buf oldHash hw
  · intro hw buf2 oldHash2
    obtain ⟨p1, p2, p3⟩ := safeWrite_post fs path buf hw
    have hw2 := safeWrite_succeeds (safeWrite fs path buf).1 path buf2 p1 p2 p3
    exact ⟨hw2, read_after_safeWrite ops _ path buf2 oldHash2 hw2⟩
  · intro hp hanc hnd
    exact safeWrite_succeeds fs path buf hp hanc hnd

theorem file_write_then_read_witness :
    (FileVehicle.Read sumHash (NewFileVehicle ["etc", "rules", "r.yaml"])
        (FileVehicle.Write (NewFileVehicle ["etc", "rules", "r.yaml"]) rootOnly
          (some [1, 2])).1 0).buf = some [1, 2] ∧
      (FileVehicle.Read sumHash (NewFileVehicle ["etc", "rules", "r.yaml"])
        (FileVehicle.Write (NewFileVehicle ["etc", "rules", "r.yaml"]) rootOnly
          (some [1, 2])).1 0).hash = 4 :=
  have w := (file_write_then_read sumHash ["etc", "rules", "r.yaml"] rootOnly
    (some [1, 2]) 0).1 (by decide)
  ⟨congrArg ReadResult.buf w, congrArg ReadResult.hash w⟩

/-- C10. Two successive `HTTPVehicle.Read` calls on one vehicle, the second
starting from the heap and the cache the first left, with `EqualBytes h (Bytes
h)` for every hash `h`: when the first is answered with a status in [200,299],
body `B` read without error and response ETag `E` (`Header.Get("ETag")`, the
first value the response map holds under `Etag`), and `MakeHash B` is valid,
the second call with `oldHash = MakeHash B` sets `If-None-Match` exactly when
`E` is not empty, then with the single value `E`; the cache holds the bytes of
`MakeHash B` for the URL; and a 304 answer to that conditional request makes
the second call return nil bytes, `MakeHash B` and a nil error. -/
theorem successive_reads_coherent {H : Type} (ops : HashOps H) (t1 t2 : Transport)
    (h : HTTPVehicle) (oldHash : H) (heap : Heap) (cache : Cache) (resp1 : Response)
    (hlaw : ∀ x : H, ops.EqualBytes x (ops.Bytes x) = true)
    (ht1 : t1 (HTTPVehicle.request ops h oldHash heap cache) = Except.ok resp1)
    (hs1 : 200 ≤ resp1.StatusCode ∧ resp1.StatusCode ≤ 299)
    (hb1 : resp1.Body.err = none)
    (hvalid : ops.IsValid (ops.MakeHash resp1.Body.data) = true) :
    ((HTTPVehicle.Read ops t2 h (ops.MakeHash resp1.Body.data)
          (HTTPVehicle.Read ops t1 h oldHash heap cache).heap
          (HTTPVehicle.Read ops t1 h oldHash heap cache).cache).setIfNoneMatch = true ↔
        headerGet resp1.Header "ETag" ≠ "") ∧
      (headerGet resp1.Header "ETag" ≠ "" →
        headerLookup (HTTPVehicle.Read ops t2 h (ops.MakeHash resp1.Body.data)
          (HTTPVehicle.Read ops t1 h oldHash heap cache).heap
          (HTTPVehicle.Read ops t1 h oldHash heap cache).cache).sent.header "If-None-Match" =
          some [headerGet resp1.Header "ETag"]) ∧
      (GetETagWithHash (HTTPVehicle.Read ops t1 h oldHash heap cache).cache h.url).1 =
        ops.Bytes (ops.MakeHash resp1.Body.data) ∧
      (∀ resp2 : Response, headerGet resp1.Header "ETag" ≠ "" →
        t2 (HTTPVehicle.request ops h (ops.MakeHash resp1.Body.data)
          (HTTPVehicle.Read ops t1 h oldHash heap cache).heap
          (HTTPVehicle.Read ops t1 h oldHash heap cache).cache) = Except.ok resp2 →
        resp2.StatusCode = StatusNotModified →
        (HTTPVehicle.Read ops t2 h (ops.MakeHash resp1.Body.data)
          (HTTPVehicle.Read ops t1 h oldHash heap cache).heap
          (HTTPVehicle.Read ops t1 h oldHash heap cache).cache).buf = none ∧
        (HTTPVehicle.Read ops t2 h (ops.MakeHash resp1.Body.data)
          (HTTPVehicle.Read ops t1 h oldHash heap cache).heap
          (HTTPVehicle.Read ops t1 h oldHash heap cache).cache).hash =
            ops.MakeHash resp1.Body.data ∧
        (HTTPVehicle.Read ops t2 h (ops.MakeHash resp1.Body.data)
          (HTTPVehicle.Read ops t1 h oldHash heap cache).heap
          (HTTPVehicle.Read ops t1 h oldHash heap cache).cache).err = none ∧
        (GetETagWithHash (HTTPVehicle.Read ops t2 h (ops.MakeHash resp1.Body.data)
          (HTTPVehicle.Read ops t1 h oldHash heap cache).heap
          (HTTPVehicle.Read ops t1 h oldHash heap cache).cache).cache h.url).1 =
            ops.Bytes (ops.MakeHash resp1.Body.data)) := by
  have hget : GetETagWithHash (HTTPVehicle.Read ops t1 h oldHash heap cache).cache h.url =
      (ops.Bytes (ops.MakeHash resp1.Body.data), headerGet resp1.Header "ETag") := by
    rw [Read_of_success ops t1 h oldHash heap cache resp1 ht1 hs1 hb1]
    simp [GetETagWithHash, SetETagWithHash]
  have hiff : (HTTPVehicle.requestHeader ops h (ops.MakeHash resp1.Body.data)
      (HTTPVehicle.Read ops t1 h oldHash heap cache).heap
      (HTTPVehicle.Read ops t1 h oldHash heap cache).cache).2.2 = true ↔
      headerGet resp1.Header "ETag" ≠ "" := by
    rw [requestHeader_flag_iff, hget]
    simp [hvalid, hlaw]
  refine ⟨?_, ?_, ?_, ?_⟩
  · rw [Read_flag]
    exact hiff
  · intro hE
    have hc := (conditional_request_lookup ops t2 h (ops.MakeHash resp1.Body.data)
      (HTTPVehicle.Read ops t1 h oldHash heap cache).heap
      (HTTPVehicle.Read ops t1 h oldHash heap cache).cache) (hiff.2 hE)
    rw [hc, hget]
  · rw [hget]
  · intro resp2 hE ht2 hc2
    rw [Read_of_not_modified ops t2 h _ _ _ resp2 ht2 (hiff.2 hE) hc2]
    exact ⟨rfl, rfl, rfl, by rw [hget]⟩

theorem successive_reads_coherent_witness :
    (HTTPVehicle.Read sumHash (always (mkResponse 304 "304 Not Modified" [] [] none)) exVehicle
        (sumHash.MakeHash [1, 2])
        (HTTPVehicle.Read sumHash
          (always (mkResponse 200 "200 OK" [("Etag", ["e2"])] [1, 2] none)) exVehicle 0 []
          emptyCache).heap
        (HTTPVehicle.Read sumHash
          (always (mkResponse 200 "200 OK" [("Etag", ["e2"])] [1, 2] none)) exVehicle 0 []
          emptyCache).cache).setIfNoneMatch = true ∧
      (HTTPVehicle.Read sumHash (always (mkResponse 304 "304 Not Modified" [] [] none)) exVehicle
        (sumHash.MakeHash [1, 2])
        (HTTPVehicle.Read sumHash
          (always (mkResponse 200 "200 OK" [("Etag", ["e2"])] [1, 2] none)) exVehicle 0 []
          emptyCache).heap
        (HTTPVehicle.Read sumHash
          (always (mkResponse 200 "200 OK" [("Etag", ["e2"])] [1, 2] none)) exVehicle 0 []
          emptyCache).cache).hash = 4 :=
  have w := successive_reads_coherent sumHash
    (always (mkResponse 200 "200 OK" [("Etag", ["e2"])] [1, 2] none))
    (always (mkResponse 304 "304 Not Modified" [] [] none)) exVehicle 0 [] emptyCache
    (mkResponse 200 "200 OK" [("Etag", ["e2"])] [1, 2] none)
    (by intro x; simp [sumHash]) rfl (by decide) rfl (by decide)
  ⟨w.1.2 (by decide),
    (w.2.2.2 (mkResponse 304 "304 Not Modified" [] [] none) (by decide) rfl rfl).2.1⟩

end Resource
